import Mathlib

/-
  Verification of the polynomial root finder (src/main.cpp).

  The C++ core works on `std::vector<std::complex<double>>`; we embed it
  shallowly with `List ℂ` (coefficient of x^i at index i) and idealized
  complex arithmetic.  `rand()` seeds are passed explicitly as a stream
  `ℕ → ℂ`, the bounded refinement loop of `find_one_root` becomes a
  fuel-indexed recursion with fuel `num_steps`, and the deflation driver
  `find_roots` recurses on the length of the working polynomial.
  `size_t` subtraction `size - 1` is modelled by truncated `Nat`
  subtraction, which agrees with the C++ value whenever `size ≥ 1`
  (every claim below is about polynomials of length ≥ 1).
-/

namespace PolyRoots

noncomputable section

/-- Tolerance `small_number = 1e-9` (src/main.cpp line 28). -/
def small_number : ℝ := 1 / 1000000000

/-- Iteration budget `num_steps = 10000` (src/main.cpp line 29). -/
def num_steps : ℕ := 10000

/-- Magnitude comparator (src/main.cpp lines 78-81):
`difference < -small_number ? -1 : (difference > small_number ? 1 : 0)`. -/
def compare (x1 x2 : ℂ) : Int :=
  if Complex.abs x1 - Complex.abs x2 < -small_number then -1
  else if small_number < Complex.abs x1 - Complex.abs x2 then 1
  else 0

/-- Derivative operator (src/main.cpp lines 83-90): result has length
`max 1 (size - 1)`, entry `i-1` is `p[i] * i`; for `size ≤ 1` the loop
does not run and the single default-initialized slot stays `0`. -/
def derivative (p : List ℂ) : List ℂ :=
  if p.length ≤ 1 then [0]
  else List.ofFn (fun i : Fin (p.length - 1) => p.getD (i.1 + 1) 0 * ((i.1 + 1 : ℕ) : ℂ))

/-- Backward pass of `horner` (src/main.cpp lines 99-102) on the
coefficients `p[1..size-1]`: the last quotient slot is the leading
coefficient, and each earlier slot folds the next slot times `c` into the
corresponding original coefficient. -/
def hornerAux (c : ℂ) : List ℂ → List ℂ
  | [] => []
  | [a] => [a]
  | a :: b :: rest =>
    let q := hornerAux c (b :: rest)
    (a + q.headI * c) :: q

/-- Horner evaluator/deflator (src/main.cpp lines 96-105): quotient of
length `max 1 (size-1)` and remainder `result[0]*c + p[0]`.  The C++
routine is only ever called with a non-empty vector; on `[]` we return
the same shape with zeros. -/
def horner (p : List ℂ) (c : ℂ) : List ℂ × ℂ :=
  match p with
  | [] => ([0], 0)
  | [a] => ([0], (0 : ℂ) * c + a)
  | a :: b :: rest =>
    let q := hornerAux c (b :: rest)
    (q, q.headI * c + a)

/-- Evaluation mode (src/main.cpp lines 92-94): keep only the remainder. -/
def evaluate_horner (p : List ℂ) (c : ℂ) : ℂ :=
  (horner p c).2

/-- Principal complex square root, the idealization of `std::sqrt` on
`std::complex<double>`. -/
def csqrt (z : ℂ) : ℂ := z ^ ((1 : ℂ) / 2)

/-- Loop body of `find_one_root` (src/main.cpp lines 112-127), indexed by
the remaining fuel: evaluate `y0`, exit when `y0` compares equal to zero,
otherwise form the Laguerre-style correction `a = n / (g ± r)` and update
`c -= a`, exiting when the correction compares equal to zero. -/
def laguerre_iter (p p1 p2 : List ℂ) (n : ℕ) : ℕ → ℂ → ℂ
  | 0, c => c
  | fuel + 1, c =>
    let y0 := evaluate_horner p c
    if compare y0 0 = 0 then c
    else
      let g := evaluate_horner p1 c / y0
      let h := g * g - evaluate_horner p2 c - y0
      let r := csqrt (((n - 1 : ℕ) : ℂ) * (h * (n : ℂ) - g * g))
      let d1 := g + r
      let d2 := g - r
      let a := (n : ℂ) / (if 0 < compare d1 d2 then d1 else d2)
      let c2 := c - a
      if compare a 0 = 0 then c2 else laguerre_iter p p1 p2 n fuel c2

/-- Single-root refiner (src/main.cpp lines 107-129): precompute the two
derivatives, then run the bounded loop for `num_steps` steps. -/
def find_one_root (p : List ℂ) (c : ℂ) : ℂ :=
  laguerre_iter p (derivative p) (derivative (derivative p)) (p.length - 1) num_steps c

/-- Correction term `a` of one refiner pass (src/main.cpp lines 117-122):
`a = n / (g ± r)` with the larger-magnitude denominator selected. -/
def lag_corr (p1 p2 : List ℂ) (n : ℕ) (c y0 : ℂ) : ℂ :=
  let g := evaluate_horner p1 c / y0
  let h := g * g - evaluate_horner p2 c - y0
  let r := csqrt (((n - 1 : ℕ) : ℂ) * (h * (n : ℂ) - g * g))
  let d1 := g + r
  let d2 := g - r
  (n : ℂ) / (if 0 < compare d1 d2 then d1 else d2)

/-- One unguarded pass of the refiner loop, as a plain step function on
the running guess: fixed where the `y0` near-zero exit would fire,
otherwise the update `c - a` of src/main.cpp line 123. -/
def lag_step (p p1 p2 : List ℂ) (n : ℕ) (c : ℂ) : ℂ :=
  if compare (evaluate_horner p c) 0 = 0 then c
  else c - lag_corr p1 p2 n c (evaluate_horner p c)

lemma hornerAux_length (c : ℂ) : ∀ as : List ℂ, (hornerAux c as).length = as.length
  | [] => rfl
  | [_] => rfl
  | a :: b :: rest => by
    simp [hornerAux, hornerAux_length c (b :: rest)]

lemma horner_fst_length (p : List ℂ) (c : ℂ) :
    ((horner p c).1).length = max 1 (p.length - 1) := by
  match p with
  | [] => rfl
  | [a] => rfl
  | a :: b :: rest =>
    simp [horner, hornerAux_length]
    try omega

/-- Deflation loop of `find_roots` (src/main.cpp lines 135-142), with the
seed stream and seed index made explicit: while the working polynomial is
longer than 2, refine a fresh seed against the working polynomial, then
against the original, deflate by the polished root and emit it; finally
emit the closed-form linear root `-q[0]/q[1]`. -/
def find_roots_go (p : List ℂ) (seeds : ℕ → ℂ) (k : ℕ) (q : List ℂ) : List ℂ :=
  if h : 2 < q.length then
    let z := find_one_root p (find_one_root q (seeds k))
    z :: find_roots_go p seeds (k + 1) ((horner q z).1)
  else
    [-q.getD 0 0 / q.getD 1 0]
termination_by q.length
decreasing_by
  simp [horner_fst_length]
  omega

/-- Deflation driver (src/main.cpp lines 131-144). -/
def find_roots (seeds : ℕ → ℂ) (p : List ℂ) : List ℂ :=
  find_roots_go p seeds 0 p

/-- The working polynomial left when the deflation loop of `find_roots`
exits: same loop structure as `find_roots_go`, returning the final `q`
whose entries `q[0]` and `q[1]` the closed-form step reads. -/
def final_working_go (p : List ℂ) (seeds : ℕ → ℂ) (k : ℕ) (q : List ℂ) : List ℂ :=
  if h : 2 < q.length then
    let z := find_one_root p (find_one_root q (seeds k))
    final_working_go p seeds (k + 1) ((horner q z).1)
  else q
termination_by q.length
decreasing_by
  simp [horner_fst_length]
  omega

/-- Final working polynomial of a full `find_roots` run. -/
def final_working (seeds : ℕ → ℂ) (p : List ℂ) : List ℂ :=
  final_working_go p seeds 0 p

/-- Reference value of a polynomial, spec section 8: `p(c) = Σ p[i]*c^i`. -/
def evalSum (p : List ℂ) (c : ℂ) : ℂ :=
  ∑ i ∈ Finset.range p.length, p.getD i 0 * c ^ i

/-- Coefficient `i` of `(x - c) * q(x) + rem`, the reconstruction of the
quotient/remainder identity in spec section 8. -/
def reconCoeff (q : List ℂ) (rem c : ℂ) : ℕ → ℂ
  | 0 => rem - c * q.getD 0 0
  | i + 1 => q.getD i 0 - c * q.getD (i + 1) 0

/-- Comparator behaviour as the spec words it (section 4.1): 0 when the
magnitudes differ by at most the tolerance, else the sign of the
magnitude difference. -/
def compare_spec (a b : ℂ) : Int :=
  if |Complex.abs a - Complex.abs b| ≤ small_number then 0
  else if Complex.abs a < Complex.abs b then -1
  else 1

/-- A concrete all-zero seed stream, used to instantiate theorems. -/
def constSeeds : ℕ → ℂ := fun _ => 0

/-- A second concrete seed stream, distinct from `constSeeds`. -/
def altSeeds : ℕ → ℂ := fun _ => 1

lemma small_number_pos : (0 : ℝ) < small_number := by
  norm_num [small_number]

/-- C6: compare(a, b) returns 0 when the difference |a| - |b| lies within
the fixed tolerance 1e-9 of zero, -1 when |a| is smaller than |b| by more
than the tolerance, and +1 when |a| is larger by more than the tolerance. -/
theorem C6_compare_matches_spec (a b : ℂ) : compare a b = compare_spec a b := by
  have hε : (0 : ℝ) < small_number := small_number_pos
  unfold compare compare_spec
  by_cases h1 : Complex.abs a - Complex.abs b < -small_number
  · have hno : ¬ |Complex.abs a - Complex.abs b| ≤ small_number := by
      rw [abs_le]; push_neg; intro h; linarith
    have hlt : Complex.abs a < Complex.abs b := by linarith
    simp [h1, hno, hlt]
  · by_cases h2 : small_number < Complex.abs a - Complex.abs b
    · have hno : ¬ |Complex.abs a - Complex.abs b| ≤ small_number := by
        rw [abs_le]; push_neg; intro h; linarith
      have hnlt : ¬ Complex.abs a < Complex.abs b := by push_neg; linarith
      simp [h1, h2, hno, hnlt]
    · have hyes : |Complex.abs a - Complex.abs b| ≤ small_number := by
        rw [abs_le]; constructor <;> linarith
      simp [h1, h2, hyes]

/-- C5: derivative returns a polynomial of length max(1, L-1) whose entry
at index i-1 equals input[i] * i for 1 ≤ i ≤ L-1, and a constant
polynomial (L = 1) yields the length-1 zero polynomial. -/
theorem C5_derivative_spec (p : List ℂ) (i : ℕ) (hp : 1 ≤ p.length) :
    (derivative p).length = max 1 (p.length - 1) ∧
    (1 ≤ i → i ≤ p.length - 1 →
      (derivative p).getD (i - 1) 0 = p.getD i 0 * ((i : ℕ) : ℂ)) ∧
    (p.length = 1 → derivative p = [0]) := by
  refine ⟨?_, ?_, ?_⟩
  · unfold derivative
    split_ifs with h
    · simp; omega
    · simp; omega
  · intro h1 h2
    unfold derivative
    rw [if_neg (by omega)]
    have hi : i - 1 <
        (List.ofFn fun j : Fin (p.length - 1) =>
          p.getD (j.1 + 1) 0 * ((j.1 + 1 : ℕ) : ℂ)).length := by
      simp
      omega
    rw [List.getD_eq_getElem _ _ hi, List.getElem_ofFn]
    have hsub : i - 1 + 1 = i := by omega
    simp [hsub]
  · intro h
    unfold derivative
    rw [if_pos (by omega)]

/-- C2 witness helper is not needed; here are the quotient shape lemmas. -/
lemma hornerAux_ne_nil (c a : ℂ) (as : List ℂ) : hornerAux c (a :: as) ≠ [] := by
  cases as <;> simp [hornerAux]

lemma hornerAux_recon (c : ℂ) : ∀ (as : List ℂ) (i : ℕ),
    (hornerAux c as).getD i 0 - c * (hornerAux c as).getD (i + 1) 0 = as.getD i 0
  | [], i => by simp [hornerAux]
  | [a], i => by cases i <;> simp [hornerAux]
  | a :: b :: rest, 0 => by
    obtain ⟨x, xs, hx⟩ := List.exists_cons_of_ne_nil (hornerAux_ne_nil c b rest)
    simp [hornerAux, hx]
    ring
  | a :: b :: rest, (j + 1) => by
    simpa [hornerAux] using hornerAux_recon c (b :: rest) j

/-- C2: the quotient of horner(p, c) has length max(1, L-1), and together
with the remainder it reconstructs p exactly: each coefficient of
(x - c) * q(x) + rem equals the matching coefficient of p. -/
theorem C2_horner_reconstruction (p : List ℂ) (c : ℂ) (i : ℕ) (hp : 1 ≤ p.length) :
    ((horner p c).1).length = max 1 (p.length - 1) ∧
    reconCoeff (horner p c).1 (horner p c).2 c i = p.getD i 0 := by
  refine ⟨horner_fst_length p c, ?_⟩
  match p with
  | [a] =>
    cases i with
    | zero => simp [horner, reconCoeff]
    | succ j => cases j <;> simp [horner, reconCoeff]
  | a :: b :: rest =>
    cases i with
    | zero =>
      obtain ⟨x, xs, hx⟩ := List.exists_cons_of_ne_nil (hornerAux_ne_nil c b rest)
      simp [horner, reconCoeff, hx]
      ring
    | succ j =>
      simpa [horner, reconCoeff] using hornerAux_recon c (b :: rest) j

/-- C2 witness: the identity at p = [2, 3], c = 1, index 0. -/
theorem C2_witness : 1 ≤ ([2, 3] : List ℂ).length ∧
    (((horner [2, 3] 1).1).length = max 1 (([2, 3] : List ℂ).length - 1) ∧
    reconCoeff (horner [2, 3] 1).1 (horner [2, 3] 1).2 1 0 = ([2, 3] : List ℂ).getD 0 0) :=
  ⟨by simp, C2_horner_reconstruction [2, 3] 1 0 (by simp)⟩

lemma evalSum_cons (a : ℂ) (as : List ℂ) (c : ℂ) :
    evalSum (a :: as) c = a + evalSum as c * c := by
  unfold evalSum
  rw [List.length_cons, Finset.sum_range_succ', Finset.sum_mul]
  simp [pow_succ, mul_assoc, add_comm]

lemma hornerAux_headI_eval (c : ℂ) : ∀ (a : ℂ) (as : List ℂ),
    (hornerAux c (a :: as)).headI = evalSum (a :: as) c
  | a, [] => by simp [hornerAux, evalSum]
  | a, b :: rest => by
    simp only [hornerAux, List.headI_cons]
    rw [hornerAux_headI_eval c b rest, evalSum_cons a (b :: rest) c]

/-- C3: evaluate_horner(p, c) equals the reference polynomial value
p(c) = sum over i of p[i] * c^i. -/
theorem C3_evaluate_horner_correct (p : List ℂ) (c : ℂ) (hp : 1 ≤ p.length) :
    evaluate_horner p c = evalSum p c := by
  match p with
  | [a] => simp [evaluate_horner, horner, evalSum]
  | a :: b :: rest =>
    simp only [evaluate_horner, horner]
    rw [hornerAux_headI_eval c b rest, evalSum_cons a (b :: rest) c]
    ring

/-- C3 witness: evaluation of 1 + 2x at x = 2. -/
theorem C3_witness : 1 ≤ ([1, 2] : List ℂ).length ∧
    evaluate_horner [1, 2] 2 = evalSum [1, 2] 2 :=
  ⟨by simp, C3_evaluate_horner_correct [1, 2] 2 (by simp)⟩

/-- C5 witness: the derivative facts at p = [5, 3, 2], i = 2. -/
theorem C5_witness : 1 ≤ ([5, 3, 2] : List ℂ).length ∧
    ((derivative [5, 3, 2]).length = max 1 (([5, 3, 2] : List ℂ).length - 1) ∧
    (1 ≤ 2 → 2 ≤ ([5, 3, 2] : List ℂ).length - 1 →
      (derivative [5, 3, 2]).getD (2 - 1) 0 = ([5, 3, 2] : List ℂ).getD 2 0 * ((2 : ℕ) : ℂ)) ∧
    (([5, 3, 2] : List ℂ).length = 1 → derivative [5, 3, 2] = [0])) :=
  ⟨by simp, C5_derivative_spec [5, 3, 2] 2 (by simp)⟩

lemma find_roots_go_stop (p : List ℂ) (s : ℕ → ℂ) (k : ℕ) (q : List ℂ)
    (h : ¬ 2 < q.length) :
    find_roots_go p s k q = [-q.getD 0 0 / q.getD 1 0] := by
  rw [find_roots_go, dif_neg h]

lemma find_roots_go_step (p : List ℂ) (s : ℕ → ℂ) (k : ℕ) (q : List ℂ)
    (h : 2 < q.length) :
    find_roots_go p s k q =
      find_one_root p (find_one_root q (s k)) ::
        find_roots_go p s (k + 1)
          ((horner q (find_one_root p (find_one_root q (s k)))).1) := by
  rw [find_roots_go, dif_pos h]

lemma final_working_go_stop (p : List ℂ) (s : ℕ → ℂ) (k : ℕ) (q : List ℂ)
    (h : ¬ 2 < q.length) :
    final_working_go p s k q = q := by
  rw [final_working_go, dif_neg h]

lemma final_working_go_step (p : List ℂ) (s : ℕ → ℂ) (k : ℕ) (q : List ℂ)
    (h : 2 < q.length) :
    final_working_go p s k q =
      final_working_go p s (k + 1)
        ((horner q (find_one_root p (find_one_root q (s k)))).1) := by
  rw [final_working_go, dif_pos h]

lemma find_roots_go_spec (p : List ℂ) (s : ℕ → ℂ) :
    ∀ (n : ℕ) (q : List ℂ) (k : ℕ), q.length ≤ n →
      ∃ l : List ℂ,
        find_roots_go p s k q =
          l ++ [-(final_working_go p s k q).getD 0 0 /
                 (final_working_go p s k q).getD 1 0] ∧
        l.length = q.length - 2 := by
  intro n
  induction n with
  | zero =>
    intro q k hq
    have h : ¬ 2 < q.length := by omega
    exact ⟨[], by rw [find_roots_go_stop p s k q h, final_working_go_stop p s k q h]; simp,
      by simp only [List.length_nil]; omega⟩
  | succ n ih =>
    intro q k hq
    by_cases h : 2 < q.length
    · have hlen : ((horner q (find_one_root p (find_one_root q (s k)))).1).length
          = q.length - 1 := by
        rw [horner_fst_length]; omega
      obtain ⟨l, hl, hllen⟩ :=
        ih ((horner q (find_one_root p (find_one_root q (s k)))).1) (k + 1) (by omega)
      refine ⟨find_one_root p (find_one_root q (s k)) :: l, ?_, ?_⟩
      · rw [find_roots_go_step p s k q h, final_working_go_step p s k q h, hl]
        simp
      · simp [hllen, hlen]
        omega
    · exact ⟨[], by rw [find_roots_go_stop p s k q h, final_working_go_stop p s k q h]; simp,
        by simp only [List.length_nil]; omega⟩

/-- C1: for every input polynomial of length L at least 2, find_roots
returns a root sequence with exactly L - 1 entries, built as the loop's
roots in discovery order followed by one final closed-form root. -/
theorem C1_find_roots_length (seeds : ℕ → ℂ) (p : List ℂ) (hp : 2 ≤ p.length) :
    (find_roots seeds p).length = p.length - 1 ∧
    ∃ l z, find_roots seeds p = l ++ [z] ∧ l.length = p.length - 2 := by
  obtain ⟨l, hl, hlen⟩ := find_roots_go_spec p seeds p.length p 0 le_rfl
  have hl2 : find_roots seeds p = l ++ [-(final_working_go p seeds 0 p).getD 0 0 /
      (final_working_go p seeds 0 p).getD 1 0] := hl
  refine ⟨?_, l, _, hl2, hlen⟩
  rw [hl2]
  simp [hlen]
  omega

/-- C1 witness: a degree-1 polynomial yields exactly one root. -/
theorem C1_witness : 2 ≤ ([1, 1] : List ℂ).length ∧
    ((find_roots constSeeds [1, 1]).length = ([1, 1] : List ℂ).length - 1 ∧
    ∃ l z, find_roots constSeeds [1, 1] = l ++ [z] ∧
      l.length = ([1, 1] : List ℂ).length - 2) :=
  ⟨by simp, C1_find_roots_length constSeeds [1, 1] (by simp)⟩

/-- C8: once the working polynomial has length exactly 2, the deflation
loop stops and the driver appends the closed-form root -q[0]/q[1]
directly, with no refinement iteration. -/
theorem C8_closed_form_when_length_two (p : List ℂ) (s : ℕ → ℂ) (k : ℕ) (q : List ℂ)
    (hq : q.length = 2) :
    find_roots_go p s k q = [-q.getD 0 0 / q.getD 1 0] :=
  find_roots_go_stop p s k q (by omega)

/-- C8 witness: the loop body at a length-2 working polynomial. -/
theorem C8_witness : ([3, 4] : List ℂ).length = 2 ∧
    find_roots_go [1, 1, 1] constSeeds 0 [3, 4] =
      [-([3, 4] : List ℂ).getD 0 0 / ([3, 4] : List ℂ).getD 1 0] :=
  ⟨by simp, C8_closed_form_when_length_two [1, 1, 1] constSeeds 0 [3, 4] (by simp)⟩

lemma final_working_go_length (p : List ℂ) (s : ℕ → ℂ) :
    ∀ (n : ℕ) (q : List ℂ) (k : ℕ), q.length ≤ n → 2 ≤ q.length →
      (final_working_go p s k q).length = 2 := by
  intro n
  induction n with
  | zero => intro q k hq h2; omega
  | succ n ih =>
    intro q k hq h2
    by_cases h : 2 < q.length
    · have hlen : ((horner q (find_one_root p (find_one_root q (s k)))).1).length
          = q.length - 1 := by
        rw [horner_fst_length]; omega
      rw [final_working_go_step p s k q h]
      exact ih _ (k + 1) (by omega) (by omega)
    · rw [final_working_go_stop p s k q h]
      omega

/-- C9: with an input of length at least 2 the final working polynomial
has length exactly 2, so the closed-form step's reads of q[0] and q[1]
are in bounds; with a length-1 input the final working polynomial still
has length 1, so the read of index 1 is out of bounds.  The last root of
find_roots is exactly the closed-form expression over that final working
polynomial. -/
theorem C9_index_safety (s : ℕ → ℂ) (p : List ℂ) (hp : 1 ≤ p.length) :
    (2 ≤ p.length → (final_working s p).length = 2 ∧ 1 < (final_working s p).length) ∧
    (p.length = 1 → (final_working s p).length = 1 ∧ ¬ 1 < (final_working s p).length) ∧
    (∃ l, find_roots s p =
      l ++ [-(final_working s p).getD 0 0 / (final_working s p).getD 1 0]) := by
  refine ⟨?_, ?_, ?_⟩
  · intro h2
    have hlen : (final_working s p).length = 2 :=
      final_working_go_length p s p.length p 0 le_rfl h2
    exact ⟨hlen, by omega⟩
  · intro h1
    have hfw : final_working s p = p := final_working_go_stop p s 0 p (by omega)
    rw [hfw]
    omega
  · obtain ⟨l, hl, _⟩ := find_roots_go_spec p s p.length p 0 le_rfl
    exact ⟨l, hl⟩

/-- C9 witness: at the linear polynomial [1, 1] the in-bounds branch. -/
theorem C9_witness : 1 ≤ ([1, 1] : List ℂ).length ∧
    ((2 ≤ ([1, 1] : List ℂ).length → (final_working constSeeds [1, 1]).length = 2 ∧
        1 < (final_working constSeeds [1, 1]).length) ∧
    (([1, 1] : List ℂ).length = 1 → (final_working constSeeds [1, 1]).length = 1 ∧
        ¬ 1 < (final_working constSeeds [1, 1]).length) ∧
    (∃ l, find_roots constSeeds [1, 1] =
      l ++ [-(final_working constSeeds [1, 1]).getD 0 0 /
             (final_working constSeeds [1, 1]).getD 1 0])) :=
  ⟨by simp, C9_index_safety constSeeds [1, 1] (by simp)⟩

/-- C10: for a length-2 input the driver returns the single closed-form
root -p[0]/p[1] and the result does not depend on the seed stream. -/
theorem C10_linear_deterministic (s s2 : ℕ → ℂ) (p : List ℂ) (hp : p.length = 2) :
    find_roots s p = [-p.getD 0 0 / p.getD 1 0] ∧ find_roots s p = find_roots s2 p := by
  have h1 : find_roots s p = [-p.getD 0 0 / p.getD 1 0] :=
    find_roots_go_stop p s 0 p (by omega)
  have h2 : find_roots s2 p = [-p.getD 0 0 / p.getD 1 0] :=
    find_roots_go_stop p s2 0 p (by omega)
  exact ⟨h1, by rw [h1, h2]⟩

/-- C10 witness: the polynomial 1 + 2x under two different seed streams. -/
theorem C10_witness : ([1, 2] : List ℂ).length = 2 ∧
    (find_roots constSeeds [1, 2] =
        [-([1, 2] : List ℂ).getD 0 0 / ([1, 2] : List ℂ).getD 1 0] ∧
      find_roots constSeeds [1, 2] = find_roots altSeeds [1, 2]) :=
  ⟨by simp, C10_linear_deterministic constSeeds altSeeds [1, 2] (by simp)⟩

lemma laguerre_iter_succ_stop (p p1 p2 : List ℂ) (n fuel : ℕ) (c : ℂ)
    (h : compare (evaluate_horner p c) 0 = 0) :
    laguerre_iter p p1 p2 n (fuel + 1) c = c := by
  simp only [laguerre_iter]
  rw [if_pos h]

lemma laguerre_iter_succ_go (p p1 p2 : List ℂ) (n fuel : ℕ) (c : ℂ)
    (h : ¬ compare (evaluate_horner p c) 0 = 0) :
    laguerre_iter p p1 p2 n (fuel + 1) c =
      if compare (lag_corr p1 p2 n c (evaluate_horner p c)) 0 = 0 then
        c - lag_corr p1 p2 n c (evaluate_horner p c)
      else laguerre_iter p p1 p2 n fuel
        (c - lag_corr p1 p2 n c (evaluate_horner p c)) := by
  simp only [laguerre_iter, lag_corr]
  rw [if_neg h]

lemma lag_step_stop (p p1 p2 : List ℂ) (n : ℕ) (c : ℂ)
    (h : compare (evaluate_horner p c) 0 = 0) :
    lag_step p p1 p2 n c = c := by
  rw [lag_step, if_pos h]

lemma lag_step_go (p p1 p2 : List ℂ) (n : ℕ) (c : ℂ)
    (h : ¬ compare (evaluate_horner p c) 0 = 0) :
    lag_step p p1 p2 n c = c - lag_corr p1 p2 n c (evaluate_horner p c) := by
  rw [lag_step, if_neg h]

lemma laguerre_iter_iterate (p p1 p2 : List ℂ) (n : ℕ) :
    ∀ (fuel : ℕ) (c : ℂ), ∃ k ≤ fuel,
      laguerre_iter p p1 p2 n fuel c = (lag_step p p1 p2 n)^[k] c := by
  intro fuel
  induction fuel with
  | zero => intro c; exact ⟨0, le_rfl, rfl⟩
  | succ fuel ih =>
    intro c
    by_cases h : compare (evaluate_horner p c) 0 = 0
    · exact ⟨0, by omega, laguerre_iter_succ_stop p p1 p2 n fuel c h⟩
    · rw [laguerre_iter_succ_go p p1 p2 n fuel c h]
      by_cases h2 : compare (lag_corr p1 p2 n c (evaluate_horner p c)) 0 = 0
      · refine ⟨1, by omega, ?_⟩
        rw [if_pos h2, Function.iterate_one, lag_step_go p p1 p2 n c h]
      · rw [if_neg h2]
        obtain ⟨k, hk, hiter⟩ := ih (c - lag_corr p1 p2 n c (evaluate_horner p c))
        refine ⟨k + 1, by omega, ?_⟩
        rw [Function.iterate_succ_apply, lag_step_go p p1 p2 n c h]
        exact hiter

lemma laguerre_iter_no_stop (p p1 p2 : List ℂ) (n : ℕ) :
    ∀ (fuel : ℕ) (c : ℂ),
      (∀ j < fuel,
        ¬ compare (evaluate_horner p ((lag_step p p1 p2 n)^[j] c)) 0 = 0 ∧
        ¬ compare (lag_corr p1 p2 n ((lag_step p p1 p2 n)^[j] c)
            (evaluate_horner p ((lag_step p p1 p2 n)^[j] c))) 0 = 0) →
      laguerre_iter p p1 p2 n fuel c = (lag_step p p1 p2 n)^[fuel] c := by
  intro fuel
  induction fuel with
  | zero => intro c _; rfl
  | succ fuel ih =>
    intro c hstop
    obtain ⟨h1, h2⟩ := hstop 0 (by omega)
    rw [Function.iterate_zero_apply] at h1 h2
    rw [laguerre_iter_succ_go p p1 p2 n fuel c h1, if_neg h2]
    have hstep : lag_step p p1 p2 n c = c - lag_corr p1 p2 n c (evaluate_horner p c) :=
      lag_step_go p p1 p2 n c h1
    rw [Function.iterate_succ_apply, hstep]
    apply ih
    intro j hj
    have hnext := hstop (j + 1) (by omega)
    rw [Function.iterate_succ_apply, hstep] at hnext
    exact hnext

/-- C7: find_one_root always terminates, returning an iterate of the
refinement step reached within the fixed budget of num_steps = 10000
loop passes; when neither stopping condition fires within the budget the
value returned is exactly the last (10000th) iterate, as-is. -/
theorem C7_find_one_root_bounded (p : List ℂ) (c : ℂ) :
    (∃ k ≤ num_steps, find_one_root p c =
      (lag_step p (derivative p) (derivative (derivative p)) (p.length - 1))^[k] c) ∧
    ((∀ j < num_steps,
        ¬ compare (evaluate_horner p
            ((lag_step p (derivative p) (derivative (derivative p))
              (p.length - 1))^[j] c)) 0 = 0 ∧
        ¬ compare (lag_corr (derivative p) (derivative (derivative p)) (p.length - 1)
            ((lag_step p (derivative p) (derivative (derivative p))
              (p.length - 1))^[j] c)
            (evaluate_horner p
              ((lag_step p (derivative p) (derivative (derivative p))
                (p.length - 1))^[j] c))) 0 = 0) →
      find_one_root p c =
        (lag_step p (derivative p) (derivative (derivative p))
          (p.length - 1))^[num_steps] c) :=
  ⟨laguerre_iter_iterate p (derivative p) (derivative (derivative p)) (p.length - 1)
      num_steps c,
   fun h => laguerre_iter_no_stop p (derivative p) (derivative (derivative p))
      (p.length - 1) num_steps c h⟩

/-- C4: a refiner pass that does not hit the y0-near-zero exit computes
g = p1(c)/y0, h = g*g - p2(c) - y0 (the raw second-derivative value and
the function value, with no normalization by p(c)),
r = sqrt((n-1)*(n*h - g*g)), d1 = g + r, d2 = g - r, selects d1 exactly
when the comparator reports strictly greater (ties and non-greater give
d2), and updates c by subtracting n / selected denominator. -/
theorem C4_laguerre_step (p : List ℂ) (c : ℂ) (fuel n : ℕ)
    (y0 g hh r d1 d2 den : ℂ)
    (hp : 2 ≤ p.length)
    (hn : n = p.length - 1)
    (hy0 : y0 = evaluate_horner p c)
    (hy : ¬ compare y0 0 = 0)
    (hg : g = evaluate_horner (derivative p) c / y0)
    (hhh : hh = g * g - evaluate_horner (derivative (derivative p)) c - y0)
    (hr : r = csqrt (((n - 1 : ℕ) : ℂ) * ((n : ℂ) * hh - g * g)))
    (hd1 : d1 = g + r)
    (hd2 : d2 = g - r)
    (hden : den = if 0 < compare d1 d2 then d1 else d2) :
    laguerre_iter p (derivative p) (derivative (derivative p)) n (fuel + 1) c
      = (if compare ((n : ℂ) / den) 0 = 0 then c - (n : ℂ) / den
         else laguerre_iter p (derivative p) (derivative (derivative p)) n fuel
           (c - (n : ℂ) / den)) ∧
    (compare d1 d2 = 1 → den = d1) ∧
    (compare d1 d2 ≤ 0 → den = d2) := by
  subst hy0
  subst hg
  subst hhh
  subst hr
  subst hd1
  subst hd2
  subst hden
  refine ⟨?_, ?_, ?_⟩
  · rw [laguerre_iter_succ_go p (derivative p) (derivative (derivative p)) n fuel c hy]
    have hcorr : lag_corr (derivative p) (derivative (derivative p)) n c
        (evaluate_horner p c) =
        (n : ℂ) / (if 0 < compare
            (evaluate_horner (derivative p) c / evaluate_horner p c +
              csqrt (((n - 1 : ℕ) : ℂ) *
                ((n : ℂ) * (evaluate_horner (derivative p) c / evaluate_horner p c *
                    (evaluate_horner (derivative p) c / evaluate_horner p c) -
                  evaluate_horner (derivative (derivative p)) c - evaluate_horner p c) -
                evaluate_horner (derivative p) c / evaluate_horner p c *
                  (evaluate_horner (derivative p) c / evaluate_horner p c))))
            (evaluate_horner (derivative p) c / evaluate_horner p c -
              csqrt (((n - 1 : ℕ) : ℂ) *
                ((n : ℂ) * (evaluate_horner (derivative p) c / evaluate_horner p c *
                    (evaluate_horner (derivative p) c / evaluate_horner p c) -
                  evaluate_horner (derivative (derivative p)) c - evaluate_horner p c) -
                evaluate_horner (derivative p) c / evaluate_horner p c *
                  (evaluate_horner (derivative p) c / evaluate_horner p c))))
          then evaluate_horner (derivative p) c / evaluate_horner p c +
            csqrt (((n - 1 : ℕ) : ℂ) *
              ((n : ℂ) * (evaluate_horner (derivative p) c / evaluate_horner p c *
                  (evaluate_horner (derivative p) c / evaluate_horner p c) -
                evaluate_horner (derivative (derivative p)) c - evaluate_horner p c) -
              evaluate_horner (derivative p) c / evaluate_horner p c *
                (evaluate_horner (derivative p) c / evaluate_horner p c)))
          else evaluate_horner (derivative p) c / evaluate_horner p c -
            csqrt (((n - 1 : ℕ) : ℂ) *
              ((n : ℂ) * (evaluate_horner (derivative p) c / evaluate_horner p c *
                  (evaluate_horner (derivative p) c / evaluate_horner p c) -
                evaluate_horner (derivative (derivative p)) c - evaluate_horner p c) -
              evaluate_horner (derivative p) c / evaluate_horner p c *
                (evaluate_horner (derivative p) c / evaluate_horner p c)))) := by
      simp only [lag_corr]
      rw [mul_comm ((n : ℂ))
        (evaluate_horner (derivative p) c / evaluate_horner p c *
            (evaluate_horner (derivative p) c / evaluate_horner p c) -
          evaluate_horner (derivative (derivative p)) c - evaluate_horner p c)]
    rw [hcorr]
  · intro hgt
    rw [if_pos (by omega)]
  · intro hle
    rw [if_neg (by omega)]

lemma compare_self (a : ℂ) : compare a a = 0 := by
  unfold compare
  rw [sub_self]
  norm_num [small_number]

lemma derivative_x : derivative [0, 1] = [1] := by
  simp [derivative, List.ofFn_succ, List.ofFn_zero]

/-- C4 witness: one refiner pass on p(x) = x at the guess c = 2, where
n = 1, y0 = 2, g = 1/2, h = -7/4, r = 0 and both candidate denominators
tie at 1/2, so d2 = 1/2 is selected. -/
theorem C4_witness : (¬ compare (2 : ℂ) 0 = 0) ∧
    (laguerre_iter [0, 1] (derivative [0, 1]) (derivative (derivative [0, 1])) 1 (0 + 1) 2
      = (if compare (((1 : ℕ) : ℂ) / ((1 : ℂ) / 2)) 0 = 0 then
           2 - ((1 : ℕ) : ℂ) / ((1 : ℂ) / 2)
         else laguerre_iter [0, 1] (derivative [0, 1]) (derivative (derivative [0, 1])) 1 0
           (2 - ((1 : ℕ) : ℂ) / ((1 : ℂ) / 2))) ∧
    (compare ((1 : ℂ) / 2) ((1 : ℂ) / 2) = 1 → ((1 : ℂ) / 2) = (1 : ℂ) / 2) ∧
    (compare ((1 : ℂ) / 2) ((1 : ℂ) / 2) ≤ 0 → ((1 : ℂ) / 2) = (1 : ℂ) / 2)) :=
  ⟨by norm_num [compare, small_number, Complex.abs_two],
   C4_laguerre_step [0, 1] 2 0 1 2 ((1 : ℂ) / 2) ((-7 : ℂ) / 4) 0 ((1 : ℂ) / 2)
     ((1 : ℂ) / 2) ((1 : ℂ) / 2)
     (by simp)
     (by simp)
     (by simp [evaluate_horner, horner, hornerAux])
     (by norm_num [compare, small_number, Complex.abs_two])
     (by rw [derivative_x]; simp [evaluate_horner, horner])
     (by rw [derivative_x, show derivative [1] = [0] from by simp [derivative]]
         simp [evaluate_horner, horner]
         norm_num)
     (by rw [show (((1 - 1 : ℕ) : ℂ) *
           (((1 : ℕ) : ℂ) * ((-7 : ℂ) / 4) - (1 : ℂ) / 2 * ((1 : ℂ) / 2))) = 0 from by
             norm_num,
           csqrt, Complex.zero_cpow (by norm_num)])
     (by norm_num)
     (by norm_num)
     (by rw [compare_self]; norm_num)⟩

/-- Embedding validation: synthetic division of the sample cubic
x^3 - 8x^2 - 13x + 140 by (x - 7) gives x^2 - x - 20 with remainder 0,
matching the program's sample run. -/
lemma horner_sample_cubic : horner [140, -13, -8, 1] 7 = ([-20, -1, 1], 0) := by
  simp [horner, hornerAux]
  norm_num

/-- Embedding validation: derivative of the sample cubic. -/
lemma derivative_sample_cubic : derivative [140, -13, -8, 1] = [-13, -16, 3] := by
  simp [derivative, List.ofFn_succ, List.ofFn_zero]
  norm_num

end

end PolyRoots
